import Mathlib

/-!
Shallow embedding of `gmplot/utility.py`.

Python strings are modelled as `List Char` (`Line`), a Markdown document as a
list of lines (each line keeps its trailing newline, exactly as produced by
`file.readlines()`), and the per-file rewriting pipeline of
`_pretty_format_markdown` as a pure function.  An uncaught Python exception is
modelled by an `Except PyErr` error value.  Loops whose Python form is
`while True` (or recursion on a quotient) are written with an explicit fuel
argument; the fuel is always sufficient because every iteration strictly
shrinks its argument.
-/

abbrev Line := List Char

/-- Python exceptions that `_pretty_format_markdown` can raise. -/
inductive PyErr where
  | indexError
  | assertionError
  | typeError
deriving DecidableEq

deriving instance DecidableEq for Except

/-- Whitespace characters recognised by Python `str.isspace` / `str.split` (ASCII range). -/
def isWsChar (c : Char) : Bool :=
  c = ' ' || c = '\t' || c = '\n' || c = '\r' || c = '\x0b' || c = '\x0c'

/-- Python `str.isspace`: nonempty and all characters whitespace. -/
def pyIsSpace (l : Line) : Bool := !l.isEmpty && l.all isWsChar

/-- `_bookend` (utility.py line 258): bookend a string with a fragment on both ends,
unless it is already bookended; the empty string stays empty. -/
def bookend (s f : Line) : Line :=
  if s = [] then []
  else if f.isPrefixOf s && f.isSuffixOf s then s
  else f ++ s ++ f

/-- Helper for `splitWs`: `acc` holds the (reversed) token being read. -/
def splitWsAux : Line → Line → List Line
  | [], acc => if acc = [] then [] else [acc.reverse]
  | c :: cs, acc =>
    if isWsChar c then
      if acc = [] then splitWsAux cs []
      else acc.reverse :: splitWsAux cs []
    else splitWsAux cs (c :: acc)

/-- Python `str.split()` with no arguments: maximal runs of non-whitespace. -/
def splitWs (l : Line) : List Line := splitWsAux l []

/-- Index of the first occurrence of a character (Python `str.find`, as an `Option`). -/
def findIdxChar (c : Char) : Line → Option ℕ
  | [] => none
  | x :: xs => if x = c then some 0 else (findIdxChar c xs).map (· + 1)

/-- Index of the last occurrence of a character (Python `str.rfind`, as an `Option`). -/
def lastIdxCharAux (c : Char) : ℕ → Line → Option ℕ
  | _, [] => none
  | i, x :: xs =>
    match lastIdxCharAux c (i + 1) xs with
    | some j => some j
    | none => if x = c then some i else none

def und : Line := ['_']
def ast2 : Line := ['*', '*']
def tick : Line := ['`']

/-- Final recombination step of `_pretty_format_signature_header` (lines 327-343):
italicised annotation, scope, bold name, parameters. -/
def rebuildHeader (ann : Option Line) (fullName params : Line) : Option Line :=
  match lastIdxCharAux '.' 0 fullName with
  | none => none
  | some lp =>
    some ((match ann with
            | some a => if a ≠ [] then bookend a und ++ [' '] else []
            | none => []) ++
          fullName.take lp ++ ['.'] ++ bookend (fullName.drop (lp + 1)) ast2 ++
          ['('] ++ params ++ [')'])

/-- `_pretty_format_signature_header` (utility.py line 277).  `.ok none` is Python's
`return None`; `.error .indexError` models the uncaught `IndexError` raised by
`signature_header[-1]` on an empty string and by `header_sections[0]` on an empty
split result. -/
def pretty_format_signature_header (s : Line) : Except PyErr (Option Line) :=
  match s.getLast? with
  | none => .error .indexError
  | some c =>
    if c = ')' then
      match findIdxChar '(' s.dropLast with
      | none => .ok none
      | some i =>
        match splitWs (s.dropLast.take i) with
        | [] => .error .indexError
        | hl :: secs =>
          match hl with
          | [] => .error .indexError
          | h0 :: _ =>
            if h0 = '#' ∧ hl = List.replicate hl.length h0 then
              match secs with
              | [fn] => .ok (rebuildHeader none fn (bookend (s.dropLast.drop (i + 1)) und))
              | [a, fn] => .ok (rebuildHeader (some a) fn (bookend (s.dropLast.drop (i + 1)) und))
              | _ => .ok none
            else .ok none
    else .ok none

/-- Index of the first occurrence of `sep` as a contiguous sublist. -/
def findSub (sep : Line) : Line → Option ℕ
  | [] => if sep.isPrefixOf [] then some 0 else none
  | x :: xs => if sep.isPrefixOf (x :: xs) then some 0 else (findSub sep xs).map (· + 1)

def splitOnSubAux (sep : Line) : ℕ → Line → List Line
  | 0, l => [l]
  | fuel + 1, l =>
    match findSub sep l with
    | none => [l]
    | some i => l.take i :: splitOnSubAux sep fuel (l.drop (i + sep.length))

/-- Python `str.split(sep)` for a nonempty separator (fuelled; the fuel always suffices
because each step removes at least one character). -/
def splitOnSub (sep l : Line) : List Line := splitOnSubAux sep (l.length + 1) l

/-- `_strip_character` (utility.py line 345), specialised to a one-character argument
as used by the Markdown rewriter: remove every unescaped occurrence of `c`. -/
def strip_character (l : Line) (c : Char) : Line :=
  List.intercalate ['\\', c] ((splitOnSub ['\\', c] l).map (List.filter (fun x => x != c)))

def orSep : Line := " or ".toList

/-- Greedy search for the end of group 2 of `_PARAMETER_REGEX`: the largest `j` with a
closing parenthesis at `j` immediately followed by the literal ' – '. -/
def largestJ (l : Line) (e : ℕ) : Option ℕ :=
  ((List.range l.length).reverse).find? (fun j =>
    decide (e + 1 < j) && (l.getD j 'x' == ')') && (l.getD (j + 1) 'x' == ' ')
      && (l.getD (j + 2) 'x' == '–') && (l.getD (j + 3) 'x' == ' '))

/-- Whether position `e` can end group 1 of `_PARAMETER_REGEX`: a space followed by an
opening parenthesis such that the rest of the pattern matches. -/
def validCand (l : Line) (e : ℕ) : Bool :=
  (l.getD e 'x' == ' ') && (l.getD (e + 1) 'x' == '(') && (largestJ l e).isSome

/-- Anchored match of `_PARAMETER_REGEX` `( *.*? )(\(.*\))( – .*)` with DOTALL.
Backtracking order of the Python engine: the leading space run is taken greedily and
`.*?` lazily, so the candidate end positions of group 1 are tried from the length of
the leading space run upward, then below it downward. -/
def paramMatch (l : Line) : Option (Line × Line × Line) :=
  match (List.range' ((l.takeWhile (fun c => c == ' ')).length)
           (l.length - (l.takeWhile (fun c => c == ' ')).length)
         ++ (List.range ((l.takeWhile (fun c => c == ' ')).length)).reverse).find?
        (validCand l) with
  | none => none
  | some e =>
    match largestJ l e with
    | none => none
    | some j => some (l.take (e + 1), (l.drop (e + 1)).take (j - e), l.drop (j + 1))

/-- Body of the parameter-line pass (utility.py lines 425-440) applied to the matched
type expression: strip parentheses is done by the caller; here: strip unescaped
asterisks, then wrap each ' or '-separated alternative as a code literal. -/
def formatTypes (inner : Line) : Line :=
  List.intercalate orSep
    ((splitOnSub orSep (strip_character inner '*')).map (fun t => bookend t tick))

/-- One line of the parameter-formatting pass. -/
def param_transform (l : Line) : Line :=
  match paramMatch l with
  | none => l
  | some (g1, g2, g3) => g1 ++ formatTypes (g2.drop 1).dropLast ++ g3

def param_pass (lines : List Line) : List Line := lines.map param_transform

def optHeader : Line := "Optional:\n".toList
def paramsHeader : Line := "* **Parameters**\n".toList
def optParamsHeader : Line := "* **Optional Parameters**\n".toList
def nlLine : Line := "\n".toList

/-- Scan after an `Optional:` line (utility.py lines 401-408): blank lines may
intervene before `* **Parameters**`; anything else warns and aborts the scan. -/
def scanAfterOptional : ℕ → List Line → Option ℕ
  | _, [] => none
  | i, l :: ls =>
    if l = paramsHeader then some i
    else if l = nlLine then scanAfterOptional (i + 1) ls
    else none

/-- One scan of the `Optional:`/`* **Parameters**` pairing loop. -/
def findPair : ℕ → List Line → Option (ℕ × ℕ)
  | _, [] => none
  | i, l :: ls =>
    if l = optHeader then (scanAfterOptional (i + 1) ls).map (fun j => (i, j))
    else findPair (i + 1) ls

def fuse_optional_aux : ℕ → List Line → List Line
  | 0, lines => lines
  | fuel + 1, lines =>
    match findPair 0 lines with
    | none => lines
    | some (io, ip) =>
      fuse_optional_aux fuel (lines.take io ++ [optParamsHeader] ++ lines.drop (ip + 1))

/-- The `while True` fusion loop (utility.py lines 397-416); every successful pass
deletes at least one line, so the fuel always suffices. -/
def fuse_optional (lines : List Line) : List Line :=
  fuse_optional_aux (lines.length + 1) lines

def retHeader : Line := "* **Returns**\n".toList
def rtHeader : Line := "* **Return type**\n".toList

/-- Index of the last line equal to `s` (the Python loop at lines 445-449 keeps
overwriting the index, so the last occurrence wins). -/
def lastIdxAux (s : Line) : ℕ → List Line → Option ℕ
  | _, [] => none
  | i, l :: ls =>
    match lastIdxAux s (i + 1) ls with
    | some j => some j
    | none => if l = s then some i else none

/-- Relative index of the `Returns` content line (utility.py lines 455-462): stop with
no content if the `Return type` header is reached first. -/
def findRetContent : List Line → Option ℕ
  | [] => none
  | l :: ls =>
    if l = rtHeader then none
    else if pyIsSpace l then (findRetContent ls).map (· + 1)
    else some 0

/-- Relative index of the first non-whitespace line (utility.py lines 465-470). -/
def findNonSpace : List Line → Option ℕ
  | [] => none
  | l :: ls => if pyIsSpace l then (findNonSpace ls).map (· + 1) else some 0

/-- Everything before the last occurrence of `c`, if `c` occurs. -/
def beforeLast (c : Char) : Line → Option Line
  | [] => none
  | x :: xs =>
    match beforeLast c xs with
    | some r => some (x :: r)
    | none => if x = c then some [] else none

/-- Anchored match of `_LINE_REGEX` `( *)(.*)(\n)` with DOTALL: the leading space run
and the text before the last newline (anything after the last newline is outside the
match and is dropped when the groups are rejoined). -/
def lineRegex (l : Line) : Option (Line × Line) :=
  (beforeLast '\n' (l.dropWhile (fun c => c == ' '))).map
    (fun mid => (l.takeWhile (fun c => c == ' '), mid))

def emDash : Line := " – ".toList

/-- The `Returns`/`Return type` fusion stage (utility.py lines 442-503).
`.error .assertionError` models the `assert` statements; `.error .typeError` models
indexing `lines[None]` when the `Return type` header has no content below it. -/
def fuse_returns (lines : List Line) : Except PyErr (List Line) :=
  match lastIdxAux rtHeader 0 lines with
  | none => .ok lines
  | some irt =>
    match lastIdxAux retHeader 0 lines with
    | none => .error .assertionError
    | some iret =>
      match findNonSpace (lines.drop (irt + 1)) with
      | none => .error .typeError
      | some j =>
        match findRetContent (lines.drop (iret + 1)) with
        | some jr =>
          match lineRegex (lines.getD (irt + 1 + j) []) with
          | none => .error .assertionError
          | some (_, rt) =>
            match lineRegex ((lines.take irt ++ lines.drop (irt + 1 + j + 1)).getD
                              (iret + 1 + jr) []) with
            | none => .error .assertionError
            | some (sp, mid) =>
              .ok ((lines.take irt ++ lines.drop (irt + 1 + j + 1)).set (iret + 1 + jr)
                    (sp ++ bookend rt tick ++ emDash ++ mid ++ ['\n']))
        | none =>
          match lineRegex (lines.getD (irt + 1 + j) []) with
          | none => .error .assertionError
          | some (sp, mid) =>
            .ok ((lines.set (irt + 1 + j) (sp ++ bookend mid tick ++ ['\n'])).take (iret + 1)
                 ++ (lines.set (irt + 1 + j) (sp ++ bookend mid tick ++ ['\n'])).drop (irt + 1))

def fenceMark : Line := "```".toList
def pythonFence : Line := "```python\n".toList
def htmlFence : Line := "```html\n".toList

def startsFence (l : Line) : Bool := fenceMark.isPrefixOf l

/-- The code-fence tagging pass (utility.py lines 505-514): every opening fence is
rewritten to the Python-tagged fence; the second component is the final
`in_literal_block` state. -/
def fence_pass (b : Bool) : List Line → List Line × Bool
  | [] => ([], b)
  | l :: ls =>
    if startsFence l then
      if b then (l :: (fence_pass false ls).1, (fence_pass false ls).2)
      else (pythonFence :: (fence_pass true ls).1, (fence_pass true ls).2)
    else (l :: (fence_pass b ls).1, (fence_pass b ls).2)

/-- Number of fence-starting lines. -/
def countFences (ls : List Line) : ℕ := ls.countP startsFence

def htmlMark : Line := "-> <html>".toList

/-- The HTML-output retagging pass (utility.py lines 522-524): a fence line immediately
followed by a line starting with `-> <html>` is retagged. -/
def html_pass : List Line → List Line
  | [] => []
  | [l] => [l]
  | a :: b :: rest =>
    if htmlMark.isPrefixOf b && startsFence a then htmlFence :: html_pass (b :: rest)
    else a :: html_pass (b :: rest)

def wikiPrefix : Line := "https://github.com/gmplot/gmplot/wiki/".toList
def imageMark : Line := "![image](".toList

/-- One line of the embedded-image pass (utility.py lines 529-537). -/
def image_transform (l : Line) : Line :=
  if imageMark.isPrefixOf l then
    match beforeLast ')' (l.drop 9) with
    | none => l
    | some link =>
      "[[".toList ++
        (if link.head? = some '\\' || "./".toList.isPrefixOf link then
          wikiPrefix ++ link.drop 1
        else link) ++ " | width = 100000px]]\n".toList
  else l

def image_pass (lines : List Line) : List Line := lines.map image_transform

/-- Lines 2-4 inserted after the reformatted header, followed by the Optional fusion
and the parameter pass (utility.py lines 390-440). -/
def after_header_stages (h : Line) (rest : List Line) : List Line :=
  param_pass (fuse_optional ((h ++ ['\n']) :: nlLine :: "---\n".toList :: nlLine :: rest))

/-- Outcome of processing one Markdown file: skipped (with or without a warning),
written back with new contents, or aborted by an uncaught exception. -/
inductive FileResult where
  | skipped (warned : Bool)
  | written (lines : List Line)
  | raised (e : PyErr)
deriving DecidableEq

/-- The per-file body of `_pretty_format_markdown` (utility.py lines 377-541). -/
def pretty_format_markdown_file (lines : List Line) : FileResult :=
  match lines with
  | [] => .skipped false
  | l0 :: rest =>
    match pretty_format_signature_header l0.dropLast with
    | .error e => .raised e
    | .ok none => .skipped true
    | .ok (some h) =>
      match fuse_returns (after_header_stages h rest) with
      | .error e => .raised e
      | .ok ls =>
        if (fence_pass false ls).2 then .skipped true
        else .written (image_pass (html_pass (fence_pass false ls).1))

/-- The directory loop of `_pretty_format_markdown`: the resulting list of files on
disk together with the first uncaught exception, if any.  A raised exception leaves
the current file and every later file unprocessed. -/
def pretty_format_markdown : List (List Line) → List (List Line) × Option PyErr
  | [] => ([], none)
  | f :: fs =>
    match pretty_format_markdown_file f with
    | .raised e => (f :: fs, some e)
    | .skipped _ => (f :: (pretty_format_markdown fs).1, (pretty_format_markdown fs).2)
    | .written ls => (ls :: (pretty_format_markdown fs).1, (pretty_format_markdown fs).2)

/-- Decimal digit characters of a natural number (fuelled division loop; `n + 1`
steps always suffice). -/
def natCharsAux : ℕ → ℕ → Line → Line
  | 0, _, acc => acc
  | fuel + 1, n, acc =>
    if n < 10 then Nat.digitChar n :: acc
    else natCharsAux fuel (n / 10) (Nat.digitChar (n % 10) :: acc)

def natChars (n : ℕ) : Line := natCharsAux (n + 1) n []

/-- The `p` fraction digits of `m / 10^p`, most significant first. -/
def fracChars (m p : ℕ) : Line :=
  (List.range p).map (fun k => Nat.digitChar ((m / 10 ^ (p - 1 - k)) % 10))

/-- C-style `%.*f` rendering over exact rationals: round to `p` decimal places and
print the integer part, then (for `p > 0`) a point and exactly `p` fraction digits. -/
def renderFixed (q : ℚ) (p : ℕ) : Line :=
  (if (⌊q * (10 : ℚ) ^ p + 1 / 2⌋ : ℤ) < 0 then ['-'] else []) ++
    natChars ((⌊q * (10 : ℚ) ^ p + 1 / 2⌋ : ℤ).natAbs / 10 ^ p) ++
    (if p = 0 then [] else '.' :: fracChars (⌊q * (10 : ℚ) ^ p + 1 / 2⌋ : ℤ).natAbs p)

/-- `_format_LatLng` (utility.py line 113). -/
def format_LatLng (lat lng : ℚ) (p : ℕ) : Line :=
  "new google.maps.LatLng(".toList ++ renderFixed lat p ++ ", ".toList ++
    renderFixed lng p ++ [')']

/-- Number of characters after the first '.' of a rendered number (0 when there is
no point). -/
def fracDigits (s : Line) : ℕ := ((s.dropWhile (fun c => c != '.')).drop 1).length

/-- `link_content` computed by `_write_to_sidebar` (utility.py lines 170-173). -/
def linkContent (name : Line) (link : Option Line) : Line :=
  match link with
  | some l => if name ≠ l then name ++ ['|'] ++ l else name
  | none => name

/-- `_write_to_sidebar` (utility.py line 156): the full string written for one entry. -/
def write_to_sidebar (name : Line) (link : Option Line) (depth : ℕ) : Line :=
  (if depth = 0 then
    bookend ("[[".toList ++ linkContent name link ++ "]]".toList) ast2 ++ ['\n']
  else
    List.replicate (4 * (depth - 1)) ' ' ++ "* ".toList ++
      ("[[".toList ++ linkContent name link ++ "]]".toList)) ++ ['\n']

/-- Sphinx directive kind of an item, as classified by `_GenerateDocFiles._recurse`. -/
inductive PyKind where
  | routine
  | cls
  | other
deriving DecidableEq

/-- A module attribute tree: each attribute has a name, a docstring flag, a kind and
its own attributes.  This is the explicit form of the `element.__dict__` graph walked
by `_GenerateDocFiles._recurse`. -/
inductive PyAttrs where
  | nil : PyAttrs
  | cons (name : Line) (doc : Bool) (kind : PyKind) (child : PyAttrs) (rest : PyAttrs) : PyAttrs

/-- One `_write_to_sidebar` call recorded during `_recurse`. -/
structure SEntry where
  name : Line
  full : Line
  depth : ℕ
deriving DecidableEq

def joinDot (xs : List Line) : Line := List.intercalate ['.'] xs

/-- `_GenerateDocFiles._recurse` (utility.py line 209): skip private names and items
without a docstring, warn-and-skip unsupported kinds, and otherwise record the
sidebar call `(name, full_name, len(ancestry))` before recursing with the extended
ancestry. -/
def recurseEntries : PyAttrs → List Line → List SEntry
  | .nil, _ => []
  | .cons name doc kind child rest, anc =>
    if name.head? = some '_' then recurseEntries rest anc
    else if doc = false then recurseEntries rest anc
    else
      match kind with
      | .other => recurseEntries rest anc
      | _ =>
        ⟨name, joinDot (anc ++ [name]), anc.length⟩ ::
          (recurseEntries child (anc ++ [name]) ++ recurseEntries rest anc)

/-- The text `_recurse` appends to the sidebar file. -/
def sidebarText (t : PyAttrs) (anc : List Line) : Line :=
  ((recurseEntries t anc).map (fun e => write_to_sidebar e.name (some e.full) e.depth)).flatten

/-! ### Helper lemmas -/

lemma isPrefixOf_append_self (f t : Line) : f.isPrefixOf (f ++ t) = true := by
  induction f with
  | nil => simp [List.isPrefixOf]
  | cons c cs ih => simp [List.isPrefixOf, ih]

lemma isSuffixOf_append_self (f t : Line) : f.isSuffixOf (t ++ f) = true := by
  simp only [List.isSuffixOf, List.reverse_append]
  exact isPrefixOf_append_self f.reverse t.reverse

lemma bookend_of_ne (s f : Line) (hs : s ≠ []) (hb : ¬(f.isPrefixOf s && f.isSuffixOf s)) :
    bookend s f = f ++ s ++ f := by
  unfold bookend
  rw [if_neg hs, if_neg hb]

lemma bookend_ne_nil (s f : Line) (hs : s ≠ []) : bookend s f ≠ [] := by
  unfold bookend
  rw [if_neg hs]
  by_cases hb : f.isPrefixOf s && f.isSuffixOf s
  · rw [if_pos hb]; exact hs
  · rw [if_neg hb]; simp [hs]

lemma bookend_mem (s f : Line) (c : Char) (hc : c ∈ bookend s f) : c ∈ s ∨ c ∈ f := by
  unfold bookend at hc
  by_cases hs : s = []
  · rw [if_pos hs] at hc; simp at hc
  · rw [if_neg hs] at hc
    by_cases hb : f.isPrefixOf s && f.isSuffixOf s
    · rw [if_pos hb] at hc; exact Or.inl hc
    · rw [if_neg hb] at hc
      simp only [List.mem_append] at hc
      tauto

/-! ### C10: idempotence of bookend -/

/-- C10: `_bookend` is idempotent, and its result is empty exactly when its input
string is empty, so repeated formatting passes never stack additional markers. -/
theorem c10_bookend_idempotent (s f : Line) :
    bookend (bookend s f) f = bookend s f ∧ (bookend s f = [] ↔ s = []) := by
  constructor
  · by_cases hs : s = []
    · simp [bookend, hs]
    · by_cases hb : f.isPrefixOf s && f.isSuffixOf s
      · unfold bookend
        rw [if_neg hs, if_pos hb, if_neg hs, if_pos hb]
      · rw [bookend_of_ne s f hs hb]
        have hne : f ++ s ++ f ≠ [] := by simp [hs]
        have h1 : f.isPrefixOf (f ++ s ++ f) = true := by
          rw [List.append_assoc]; exact isPrefixOf_append_self f (s ++ f)
        have h2 : f.isSuffixOf (f ++ s ++ f) = true := isSuffixOf_append_self f (f ++ s)
        unfold bookend
        rw [if_neg hne, h1, h2]
        simp
  · constructor
    · intro h
      by_contra hs
      exact bookend_ne_nil s f hs h
    · intro h; simp [bookend, h]

/-! ### C8: LatLng precision -/

lemma natCharsAux_no_dot :
    ∀ (fuel n : ℕ) (acc : Line), (∀ c ∈ acc, c ≠ '.') →
      ∀ c ∈ natCharsAux fuel n acc, c ≠ '.' := by
  intro fuel
  induction fuel with
  | zero => intro n acc hacc; simpa [natCharsAux] using hacc
  | succ f ih =>
    intro n acc hacc c hc
    have hdig : ∀ k, k < 10 → Nat.digitChar k ≠ '.' := by decide
    unfold natCharsAux at hc
    by_cases h10 : n < 10
    · rw [if_pos h10] at hc
      rcases List.mem_cons.mp hc with h | h
      · rw [h]; exact hdig n h10
      · exact hacc c h
    · rw [if_neg h10] at hc
      refine ih (n / 10) (Nat.digitChar (n % 10) :: acc) ?_ c hc
      intro d hd
      rcases List.mem_cons.mp hd with h | h
      · rw [h]; exact hdig (n % 10) (Nat.mod_lt n (by norm_num))
      · exact hacc d h

lemma natChars_no_dot (n : ℕ) : ∀ c ∈ natChars n, c ≠ '.' :=
  natCharsAux_no_dot (n + 1) n [] (by simp)

lemma dropWhile_all_append (p : Char → Bool) (a b : Line) (h : ∀ c ∈ a, p c = true) :
    (a ++ b).dropWhile p = b.dropWhile p := by
  induction a with
  | nil => simp
  | cons x xs ih =>
    simp only [List.cons_append, List.dropWhile_cons, h x (by simp)]
    exact ih (fun c hc => h c (by simp [hc]))

lemma dropWhile_all (p : Char → Bool) (a : Line) (h : ∀ c ∈ a, p c = true) :
    a.dropWhile p = [] := by
  have := dropWhile_all_append p a [] h
  simpa using this

lemma renderFixed_fracDigits (q : ℚ) (p : ℕ) : fracDigits (renderFixed q p) = p := by
  have hsign : ∀ c ∈ (if (⌊q * (10 : ℚ) ^ p + 1 / 2⌋ : ℤ) < 0 then ['-'] else []), c ≠ '.' := by
    intro c hc
    by_cases hneg : (⌊q * (10 : ℚ) ^ p + 1 / 2⌋ : ℤ) < 0
    · rw [if_pos hneg] at hc; simp at hc; rw [hc]; decide
    · rw [if_neg hneg] at hc; simp at hc
  by_cases hp : p = 0
  · subst hp
    unfold renderFixed fracDigits
    rw [if_pos rfl, List.append_nil]
    rw [dropWhile_all]
    · simp
    · intro c hc
      rcases List.mem_append.mp hc with h | h
      · simpa using hsign c h
      · simpa using natChars_no_dot _ c h
  · unfold renderFixed fracDigits
    rw [if_neg hp]
    rw [dropWhile_all_append]
    · simp only [List.dropWhile_cons]
      norm_num
      simp [fracChars]
    · intro c hc
      rcases List.mem_append.mp hc with h | h
      · simpa using hsign c h
      · simpa using natChars_no_dot _ c h

/-- C8: `_format_LatLng` renders both coordinates with the same caller-specified
precision: the emitted expression embeds each coordinate rendered with exactly `p`
digits after the decimal point. -/
theorem c8_latlng_precision (lat lng : ℚ) (p : ℕ) :
    format_LatLng lat lng p =
      "new google.maps.LatLng(".toList ++ renderFixed lat p ++ ", ".toList ++
        renderFixed lng p ++ [')']
    ∧ fracDigits (renderFixed lat p) = p ∧ fracDigits (renderFixed lng p) = p :=
  ⟨rfl, renderFixed_fracDigits lat p, renderFixed_fracDigits lng p⟩

/-! ### C7: sidebar entry format and recursion depth -/

lemma bookend_of_bracket (lc : Line) :
    bookend ('[' :: '[' :: lc) ast2 = ast2 ++ ('[' :: '[' :: lc) ++ ast2 := by
  apply bookend_of_ne
  · simp
  · intro h
    have hpre : ast2.isPrefixOf ('[' :: '[' :: lc) = false := rfl
    rw [hpre, Bool.false_and] at h
    exact Bool.false_ne_true h

/-- C7 counterexample: at depth 1 the written sidebar line carries no leading
indentation at all, so it is not prefixed by 4·1 spaces as the claim states. -/
theorem c7_counterexample :
    write_to_sidebar ['x'] none 1 ≠ List.replicate (4 * 1) ' ' ++ "* [[x]]\n".toList := by
  decide

/-- C7 (amended): a depth-0 sidebar entry is a bold-bookended double-bracket link
followed by a blank line; a depth-d entry with d ≥ 1 is indented by 4·(d−1) spaces
and prefixed with '* '; and the depth recorded by `_recurse` for each discovered item
equals the length of its ancestry. -/
theorem c7_sidebar_format :
    (∀ name link, write_to_sidebar name link 0 =
        ast2 ++ "[[".toList ++ linkContent name link ++ "]]".toList ++ ast2 ++ "\n\n".toList)
    ∧ (∀ name link d, 1 ≤ d → write_to_sidebar name link d =
        List.replicate (4 * (d - 1)) ' ' ++ "* [[".toList ++ linkContent name link ++
          "]]\n".toList)
    ∧ (∀ t anc e, e ∈ recurseEntries t anc →
        ∃ a : List Line, e.depth = a.length ∧ e.full = joinDot (a ++ [e.name])) := by
  refine ⟨?_, ?_, ?_⟩
  · intro name link
    unfold write_to_sidebar
    rw [if_pos rfl]
    rw [show "[[".toList ++ linkContent name link ++ "]]".toList =
          '[' :: '[' :: (linkContent name link ++ "]]".toList) from by simp]
    rw [bookend_of_bracket]
    simp
  · intro name link d hd
    unfold write_to_sidebar
    rw [if_neg (by omega)]
    simp
  · intro t
    induction t with
    | nil => intro anc e he; simp [recurseEntries] at he
    | cons name doc kind child rest ihc ihr =>
      intro anc e he
      unfold recurseEntries at he
      by_cases h1 : name.head? = some '_'
      · rw [if_pos h1] at he; exact ihr anc e he
      · rw [if_neg h1] at he
        by_cases h2 : doc = false
        · rw [if_pos h2] at he; exact ihr anc e he
        · rw [if_neg h2] at he
          match kind with
          | .other => exact ihr anc e he
          | .routine =>
            rcases List.mem_cons.mp he with h | h
            · exact ⟨anc, by rw [h], by rw [h]⟩
            · rcases List.mem_append.mp h with h' | h'
              · exact ihc (anc ++ [name]) e h'
              · exact ihr anc e h'
          | .cls =>
            rcases List.mem_cons.mp he with h | h
            · exact ⟨anc, by rw [h], by rw [h]⟩
            · rcases List.mem_append.mp h with h' | h'
              · exact ihc (anc ++ [name]) e h'
              · exact ihr anc e h'

/-- C7 witness: the amended formatting law evaluated at depth 2 and on a concrete
two-level attribute tree. -/
theorem c7_sidebar_format_witness :
    write_to_sidebar ['x'] none 2 =
      List.replicate (4 * (2 - 1)) ' ' ++ "* [[".toList ++ linkContent ['x'] none ++
        "]]\n".toList
    ∧ ∃ a : List Line,
        (SEntry.mk ['y'] "x.y".toList 1).depth = a.length
        ∧ (SEntry.mk ['y'] "x.y".toList 1).full = joinDot (a ++ [['y']]) := by
  refine ⟨c7_sidebar_format.2.1 ['x'] none 2 (by norm_num), ?_⟩
  exact c7_sidebar_format.2.2
    (PyAttrs.cons ['x'] true .cls (PyAttrs.cons ['y'] true .routine .nil .nil) .nil) []
    ⟨['y'], "x.y".toList, 1⟩ (by decide)

/-! ### C1: parameter-line type formatting -/

/-- C1 counterexample: on the spec's own example line the parameter pass does not
produce the claimed parenthesised form — the parentheses around the type expression
are stripped and never re-added. -/
theorem c1_counterexample :
    param_transform "  * **x** (*int* or *str*) – A value.\n".toList ≠
      "  * **x** (`int` or `str`) – A value.\n".toList := by
  decide

/-- C1 (amended): the parameter pass strips the enclosing parentheses (and does not
re-add them), strips unescaped asterisks, re-wraps each 'or'-delimited alternative as
an inline code literal rejoined with ' or ', and escaped asterisks inside the type
expression survive un-stripped. -/
theorem c1_param_line_format :
    param_transform "  * **x** (*int* or *str*) – A value.\n".toList =
      "  * **x** `int` or `str` – A value.\n".toList
    ∧ param_transform "  * **x** (*int* or \\*str\\*) – A value.\n".toList =
      "  * **x** `int` or `\\*str\\*` – A value.\n".toList := by
  exact ⟨by decide, by decide⟩

/-! ### List index helper lemmas -/

lemma getD_len_add {α : Type} (l1 l2 : List α) (i : ℕ) (d : α) :
    (l1 ++ l2).getD (l1.length + i) d = l2.getD i d := by
  induction l1 with
  | nil => simp
  | cons x xs ih =>
    rw [List.cons_append, List.length_cons, Nat.succ_add, List.getD_cons_succ]
    exact ih

lemma set_len_add {α : Type} (l1 l2 : List α) (i : ℕ) (a : α) :
    (l1 ++ l2).set (l1.length + i) a = l1 ++ l2.set i a := by
  induction l1 with
  | nil => simp
  | cons x xs ih =>
    rw [List.cons_append, List.length_cons, Nat.succ_add, List.set_cons_succ,
      List.cons_append, ih]

lemma drop_len_add {α : Type} (l1 l2 : List α) (i : ℕ) :
    (l1 ++ l2).drop (l1.length + i) = l2.drop i := by
  induction l1 with
  | nil => simp
  | cons x xs ih =>
    rw [List.cons_append, List.length_cons, Nat.succ_add, List.drop_succ_cons]
    exact ih

lemma take_len_append {α : Type} (l1 l2 : List α) : (l1 ++ l2).take l1.length = l1 := by
  induction l1 with
  | nil => simp
  | cons x xs ih => rw [List.cons_append, List.length_cons, List.take_succ_cons, ih]

/-! ### C4: Optional/Parameters fusion -/

lemma scanAfter_blanks (blanks : List Line) (hb : ∀ b ∈ blanks, b = nlLine)
    (post : List Line) :
    ∀ i, scanAfterOptional i (blanks ++ paramsHeader :: post) = some (i + blanks.length) := by
  induction blanks with
  | nil => intro i; simp [scanAfterOptional]
  | cons b bs ih =>
    intro i
    have hbnl : b = nlLine := hb b (by simp)
    have h1 : b ≠ paramsHeader := by rw [hbnl]; decide
    rw [List.cons_append]
    unfold scanAfterOptional
    rw [if_neg h1, if_pos hbnl, ih (fun x hx => hb x (by simp [hx])) (i + 1)]
    simp
    omega

lemma findPair_none (ls : List Line) (h : optHeader ∉ ls) : ∀ i, findPair i ls = none := by
  induction ls with
  | nil => intro i; rfl
  | cons l ls ih =>
    intro i
    have h1 : l ≠ optHeader := fun hl => h (by simp [hl])
    unfold findPair
    rw [if_neg h1]
    exact ih (fun hm => h (by simp [hm])) (i + 1)

lemma findPair_found (pre : List Line) (h : optHeader ∉ pre) (rest : List Line) :
    ∀ i, findPair i (pre ++ optHeader :: rest) =
      (scanAfterOptional (i + pre.length + 1) rest).map (fun j => (i + pre.length, j)) := by
  induction pre with
  | nil => intro i; rw [List.nil_append]; unfold findPair; rw [if_pos rfl]; simp
  | cons p ps ih =>
    intro i
    have h1 : p ≠ optHeader := fun hl => h (by simp [hl])
    rw [List.cons_append]
    unfold findPair
    rw [if_neg h1, ih (fun hm => h (by simp [hm])) (i + 1)]
    have : i + 1 + ps.length = i + (p :: ps).length := by simp; omega
    rw [this]

/-- C4: a document with exactly one `Optional:` line followed (after k ≥ 0 blank
lines) by `* **Parameters**` is rewritten by the fusion stage into the same document
with the pair replaced by a single `* **Optional Parameters**` header; the blank
lines and the `* **Parameters**` line are deleted and no `Optional:` line remains. -/
theorem c4_optional_fusion (pre post blanks : List Line)
    (h1 : optHeader ∉ pre) (h2 : optHeader ∉ post)
    (hb : ∀ b ∈ blanks, b = nlLine)
    (h3 : optParamsHeader ∉ pre) (h4 : optParamsHeader ∉ post) :
    fuse_optional (pre ++ [optHeader] ++ blanks ++ [paramsHeader] ++ post)
      = pre ++ [optParamsHeader] ++ post
    ∧ (pre ++ [optParamsHeader] ++ post).count optParamsHeader = 1
    ∧ optHeader ∉ (pre ++ [optParamsHeader] ++ post) := by
  have hshape : pre ++ [optHeader] ++ blanks ++ [paramsHeader] ++ post
      = pre ++ optHeader :: (blanks ++ paramsHeader :: post) := by simp
  have hfp : findPair 0 (pre ++ [optHeader] ++ blanks ++ [paramsHeader] ++ post)
      = some (pre.length, pre.length + blanks.length + 1) := by
    rw [hshape, findPair_found pre h1 _ 0,
      scanAfter_blanks blanks hb post (0 + pre.length + 1)]
    simp
    omega
  have hres : optHeader ∉ (pre ++ [optParamsHeader] ++ post) := by
    intro hm
    simp only [List.append_assoc, List.mem_append, List.mem_singleton] at hm
    rcases hm with h | h | h
    · exact h1 h
    · exact absurd h (by decide)
    · exact h2 h
  have hfp2 : findPair 0 (pre ++ [optParamsHeader] ++ post) = none :=
    findPair_none _ hres 0
  have hsurg : (pre ++ [optHeader] ++ blanks ++ [paramsHeader] ++ post).take pre.length
        ++ [optParamsHeader]
        ++ (pre ++ [optHeader] ++ blanks ++ [paramsHeader] ++ post).drop
            (pre.length + blanks.length + 1 + 1)
      = pre ++ [optParamsHeader] ++ post := by
    have ht : (pre ++ [optHeader] ++ blanks ++ [paramsHeader] ++ post).take pre.length
        = pre := by
      rw [show pre ++ [optHeader] ++ blanks ++ [paramsHeader] ++ post
          = pre ++ ([optHeader] ++ blanks ++ [paramsHeader] ++ post) from by simp]
      exact take_len_append pre _
    have hd : (pre ++ [optHeader] ++ blanks ++ [paramsHeader] ++ post).drop
        (pre.length + blanks.length + 1 + 1) = post := by
      rw [show pre ++ [optHeader] ++ blanks ++ [paramsHeader] ++ post
          = (pre ++ [optHeader] ++ blanks ++ [paramsHeader]) ++ post from by simp,
        show pre.length + blanks.length + 1 + 1
          = (pre ++ [optHeader] ++ blanks ++ [paramsHeader]).length + 0 from by
            simp; omega,
        drop_len_add]
      rfl
    rw [ht, hd]
  refine ⟨?_, ?_, hres⟩
  · unfold fuse_optional
    have hlen : (pre ++ [optHeader] ++ blanks ++ [paramsHeader] ++ post).length
        = pre.length + blanks.length + post.length + 2 := by simp; omega
    rw [hlen]
    show fuse_optional_aux (pre.length + blanks.length + post.length + 2 + 1) _ = _
    unfold fuse_optional_aux
    rw [hfp]
    simp only []
    rw [hsurg]
    rw [show pre.length + blanks.length + post.length + 2
        = (pre.length + blanks.length + post.length + 1) + 1 from by omega]
    unfold fuse_optional_aux
    rw [hfp2]
  · rw [List.count_append, List.count_append]
    rw [List.count_eq_zero.mpr h3, List.count_eq_zero.mpr h4]
    simp

/-- C4 witness: the fusion applied to the minimal concrete document. -/
theorem c4_optional_fusion_witness :
    fuse_optional [optHeader, nlLine, paramsHeader] = [optParamsHeader]
    ∧ optHeader ∉ [optParamsHeader] := by
  have h := c4_optional_fusion [] [] [nlLine] (by simp) (by simp)
    (by intro b hb; simpa using hb) (by simp) (by simp)
  exact ⟨by simpa using h.1, by simpa using h.2.2⟩

/-! ### C2: Returns / Return type fusion -/

lemma lastIdxAux_of_not_mem (s : Line) (ls : List Line) (h : s ∉ ls) :
    ∀ i, lastIdxAux s i ls = none := by
  induction ls with
  | nil => intro i; rfl
  | cons l ls ih =>
    intro i
    unfold lastIdxAux
    rw [ih (fun hm => h (by simp [hm])) (i + 1)]
    rw [if_neg (fun hl => h (by simp [hl]))]

lemma lastIdxAux_spec (s : Line) (pre post : List Line) (h1 : s ∉ pre) (h2 : s ∉ post) :
    ∀ i, lastIdxAux s i (pre ++ s :: post) = some (i + pre.length) := by
  induction pre with
  | nil =>
    intro i
    rw [List.nil_append]
    unfold lastIdxAux
    rw [lastIdxAux_of_not_mem s post h2 (i + 1), if_pos rfl]
    simp
  | cons p ps ih =>
    intro i
    rw [List.cons_append]
    unfold lastIdxAux
    rw [ih (fun hm => h1 (by simp [hm])) (i + 1)]
    simp
    omega

lemma lastIdxAux_isSome (s : Line) (ls : List Line) (h : s ∈ ls) :
    ∀ i, (lastIdxAux s i ls).isSome = true := by
  induction ls with
  | nil => simp at h
  | cons l ls ih =>
    intro i
    unfold lastIdxAux
    by_cases hm : s ∈ ls
    · cases hr : lastIdxAux s (i + 1) ls with
      | none => have := ih hm (i + 1); rw [hr] at this; simp at this
      | some j => simp
    · have hl : l = s := by
        rcases List.mem_cons.mp h with h' | h'
        · exact h'.symm
        · exact absurd h' hm
      rw [lastIdxAux_of_not_mem s ls hm (i + 1), if_pos hl]
      simp

/-- C2: a document containing `* **Returns**` followed by the content line
`A result.` and `* **Return type**` followed by the content `int` (each header
occurring nowhere else) is collapsed by the fusion stage to a single `* **Returns**`
block whose content line reads an inline code literal, an en dash and the original
content, and the `* **Return type**` header (with its content) is deleted. -/
theorem c2_returns_fusion (pre post : List Line)
    (h1 : retHeader ∉ pre) (h2 : retHeader ∉ post)
    (h3 : rtHeader ∉ pre) (h4 : rtHeader ∉ post) :
    fuse_returns (pre ++ [retHeader, "A result.\n".toList, rtHeader, "int\n".toList] ++ post)
      = .ok (pre ++ [retHeader, "`int` – A result.\n".toList] ++ post)
    ∧ rtHeader ∉ (pre ++ [retHeader, "`int` – A result.\n".toList] ++ post) := by
  have hres : rtHeader ∉ (pre ++ [retHeader, "`int` – A result.\n".toList] ++ post) := by
    intro hm
    simp only [List.append_assoc, List.cons_append, List.nil_append] at hm
    rcases List.mem_append.mp hm with h | h
    · exact h3 h
    rcases List.mem_cons.mp h with h' | h'
    · exact absurd h' (by decide)
    rcases List.mem_cons.mp h' with h'' | h''
    · exact absurd h'' (by decide)
    · exact h4 h''
  refine ⟨?_, hres⟩
  have hpa : rtHeader ∉ (pre ++ [retHeader, "A result.\n".toList]) := by
    intro hm
    rcases List.mem_append.mp hm with h | h
    · exact h3 h
    · rcases List.mem_cons.mp h with h' | h'
      · exact absurd h' (by decide)
      · exact absurd h' (by decide)
  have hpb : rtHeader ∉ ("int\n".toList :: post) := by
    intro hm
    rcases List.mem_cons.mp hm with h | h
    · exact absurd h (by decide)
    · exact h4 h
  have hrt : lastIdxAux rtHeader 0
      (pre ++ [retHeader, "A result.\n".toList, rtHeader, "int\n".toList] ++ post)
      = some (pre.length + 2) := by
    rw [show pre ++ [retHeader, "A result.\n".toList, rtHeader, "int\n".toList] ++ post
        = (pre ++ [retHeader, "A result.\n".toList]) ++ rtHeader :: ("int\n".toList :: post)
        from by simp]
    rw [lastIdxAux_spec rtHeader _ _ hpa hpb 0]
    simp
  have hpc : retHeader ∉ ("A result.\n".toList :: rtHeader :: "int\n".toList :: post) := by
    intro hm
    rcases List.mem_cons.mp hm with h | h
    · exact absurd h (by decide)
    rcases List.mem_cons.mp h with h' | h'
    · exact absurd h' (by decide)
    rcases List.mem_cons.mp h' with h'' | h''
    · exact absurd h'' (by decide)
    · exact h2 h''
  have hret : lastIdxAux retHeader 0
      (pre ++ [retHeader, "A result.\n".toList, rtHeader, "int\n".toList] ++ post)
      = some pre.length := by
    rw [show pre ++ [retHeader, "A result.\n".toList, rtHeader, "int\n".toList] ++ post
        = pre ++ retHeader :: ("A result.\n".toList :: rtHeader :: "int\n".toList :: post)
        from by simp]
    rw [lastIdxAux_spec retHeader _ _ h1 hpc 0]
    simp
  have hns : findNonSpace
      ((pre ++ [retHeader, "A result.\n".toList, rtHeader, "int\n".toList] ++ post).drop
        (pre.length + 2 + 1)) = some 0 := by
    rw [List.append_assoc,
      show pre.length + 2 + 1 = pre.length + 3 from by omega,
      drop_len_add pre _ 3]
    rfl
  have hrc : findRetContent
      ((pre ++ [retHeader, "A result.\n".toList, rtHeader, "int\n".toList] ++ post).drop
        (pre.length + 1)) = some 0 := by
    rw [List.append_assoc, drop_len_add pre _ 1]
    rfl
  have hgd1 : (pre ++ [retHeader, "A result.\n".toList, rtHeader, "int\n".toList] ++ post).getD
      (pre.length + 2 + 1 + 0) [] = "int\n".toList := by
    rw [List.append_assoc,
      show pre.length + 2 + 1 + 0 = pre.length + 3 from by omega,
      getD_len_add pre _ 3]
    rfl
  have hlr1 : lineRegex "int\n".toList = some ([], "int".toList) := by decide
  have htk : (pre ++ [retHeader, "A result.\n".toList, rtHeader, "int\n".toList] ++ post).take
      (pre.length + 2) = pre ++ [retHeader, "A result.\n".toList] := by
    rw [show pre ++ [retHeader, "A result.\n".toList, rtHeader, "int\n".toList] ++ post
        = (pre ++ [retHeader, "A result.\n".toList]) ++ (rtHeader :: "int\n".toList :: post)
        from by simp,
      show pre.length + 2 = (pre ++ [retHeader, "A result.\n".toList]).length from by simp]
    exact take_len_append _ _
  have hdp : (pre ++ [retHeader, "A result.\n".toList, rtHeader, "int\n".toList] ++ post).drop
      (pre.length + 2 + 1 + 0 + 1) = post := by
    rw [show pre ++ [retHeader, "A result.\n".toList, rtHeader, "int\n".toList] ++ post
        = (pre ++ [retHeader, "A result.\n".toList, rtHeader, "int\n".toList]) ++ post
        from by simp,
      show pre.length + 2 + 1 + 0 + 1
        = (pre ++ [retHeader, "A result.\n".toList, rtHeader, "int\n".toList]).length + 0
        from by simp,
      drop_len_add]
    rfl
  have hgd2 : ((pre ++ [retHeader, "A result.\n".toList]) ++ post).getD
      (pre.length + 1 + 0) [] = "A result.\n".toList := by
    rw [List.append_assoc,
      show pre.length + 1 + 0 = pre.length + 1 from by omega,
      getD_len_add pre _ 1]
    rfl
  have hlr2 : lineRegex "A result.\n".toList = some ([], "A result.".toList) := by decide
  have hval : ([] : Line) ++ bookend "int".toList tick ++ emDash ++ "A result.".toList ++ ['\n']
      = "`int` – A result.\n".toList := by decide
  have hset : ((pre ++ [retHeader, "A result.\n".toList]) ++ post).set (pre.length + 1 + 0)
        ("`int` – A result.\n".toList)
      = pre ++ [retHeader, "`int` – A result.\n".toList] ++ post := by
    rw [List.append_assoc,
      show pre.length + 1 + 0 = pre.length + 1 from by omega,
      set_len_add pre _ 1]
    simp
  unfold fuse_returns
  rw [hrt]
  simp only []
  rw [hret]
  simp only []
  rw [hns]
  simp only []
  rw [hrc]
  simp only []
  rw [hgd1, hlr1]
  simp only []
  rw [htk, hdp, hgd2, hlr2]
  simp only []
  rw [hval, hset]

/-- C2 witness: the fusion applied to the minimal concrete document. -/
theorem c2_returns_fusion_witness :
    fuse_returns [retHeader, "A result.\n".toList, rtHeader, "int\n".toList]
      = .ok [retHeader, "`int` – A result.\n".toList] := by
  have h := c2_returns_fusion [] [] (by simp) (by simp) (by simp) (by simp)
  simpa using h.1

/-! ### C3: missing Returns header is fatal -/

/-- C3: a Markdown file that reaches the Returns-fusion stage with a
`* **Return type**` line but no `* **Returns**` line raises an AssertionError:
the per-file processing aborts with a raised exception (not a warn-and-skip), and
the whole run stops there, leaving the current file and all remaining files
unprocessed. -/
theorem c3_missing_returns_fatal (l0 h : Line) (rest : List Line)
    (files : List (List Line))
    (hh : pretty_format_signature_header l0.dropLast = .ok (some h))
    (hrt : rtHeader ∈ after_header_stages h rest)
    (hret : retHeader ∉ after_header_stages h rest) :
    pretty_format_markdown_file (l0 :: rest) = .raised .assertionError
    ∧ pretty_format_markdown ((l0 :: rest) :: files)
        = ((l0 :: rest) :: files, some .assertionError) := by
  have hfr : fuse_returns (after_header_stages h rest) = .error .assertionError := by
    have hsome := lastIdxAux_isSome rtHeader _ hrt 0
    have hnone := lastIdxAux_of_not_mem retHeader _ hret 0
    cases hr : lastIdxAux rtHeader 0 (after_header_stages h rest) with
    | none => rw [hr] at hsome; simp at hsome
    | some irt =>
      unfold fuse_returns
      rw [hr]
      simp only []
      rw [hnone]
  have hfile : pretty_format_markdown_file (l0 :: rest) = .raised .assertionError := by
    unfold pretty_format_markdown_file
    simp only []
    rw [hh]
    simp only []
    rw [hfr]
  refine ⟨hfile, ?_⟩
  unfold pretty_format_markdown
  rw [hfile]

/-- C3 witness: a concrete file with a `Return type` header and no `Returns` header
aborts the run and leaves the following file unprocessed. -/
theorem c3_missing_returns_fatal_witness :
    pretty_format_markdown_file
      ["# a.b(x)\n".toList, "* **Return type**\n".toList, "int\n".toList]
      = .raised .assertionError
    ∧ pretty_format_markdown
        [["# a.b(x)\n".toList, "* **Return type**\n".toList, "int\n".toList],
         ["# c.d(y)\n".toList]]
      = ([["# a.b(x)\n".toList, "* **Return type**\n".toList, "int\n".toList],
          ["# c.d(y)\n".toList]], some .assertionError) := by
  exact c3_missing_returns_fatal "# a.b(x)\n".toList "a.**b**(_x_)".toList
    ["* **Return type**\n".toList, "int\n".toList] [["# c.d(y)\n".toList]]
    (by decide) (by decide) (by decide)

/-! ### C6: code-fence tagging -/

lemma fence_step_open (l : Line) (ls : List Line) (hf : startsFence l = true) :
    fence_pass false (l :: ls)
      = (pythonFence :: (fence_pass true ls).1, (fence_pass true ls).2) := by
  simp [fence_pass, hf]

lemma fence_step_close (l : Line) (ls : List Line) (hf : startsFence l = true) :
    fence_pass true (l :: ls)
      = (l :: (fence_pass false ls).1, (fence_pass false ls).2) := by
  simp [fence_pass, hf]

lemma fence_step_other (b : Bool) (l : Line) (ls : List Line) (hf : startsFence l = false) :
    fence_pass b (l :: ls) = (l :: (fence_pass b ls).1, (fence_pass b ls).2) := by
  simp [fence_pass, hf]

lemma fence_pass_getD (ls : List Line) :
    ∀ (b : Bool) (i : ℕ),
      (fence_pass b ls).1.getD i [] =
        if startsFence (ls.getD i []) = true
            ∧ (countFences (ls.take i) + b.toNat) % 2 = 0
        then pythonFence else ls.getD i [] := by
  induction ls with
  | nil =>
    intro b i
    have hsf : startsFence (([] : List Line).getD i []) = false := by
      cases i <;> rfl
    rw [if_neg (by rw [hsf]; simp)]
    simp [fence_pass]
  | cons l ls ih =>
    intro b i
    by_cases hf : startsFence l
    · cases b with
      | false =>
        rw [fence_step_open l ls hf]
        cases i with
        | zero =>
          rw [List.getD_cons_zero, List.getD_cons_zero, if_pos]
          refine ⟨hf, ?_⟩
          simp [countFences]
        | succ i =>
          rw [List.getD_cons_succ, List.getD_cons_succ, ih true i]
          have hc : countFences ((l :: ls).take (i + 1)) = countFences (ls.take i) + 1 := by
            simp [countFences, List.countP_cons, hf]
          rw [hc]
          simp only [Bool.toNat_true, Bool.toNat_false]
      | true =>
        rw [fence_step_close l ls hf]
        cases i with
        | zero =>
          rw [List.getD_cons_zero, List.getD_cons_zero, if_neg]
          intro hx
          have := hx.2
          simp [countFences, Bool.toNat_true] at this
        | succ i =>
          rw [List.getD_cons_succ, List.getD_cons_succ, ih false i]
          have hc : countFences ((l :: ls).take (i + 1)) = countFences (ls.take i) + 1 := by
            simp [countFences, List.countP_cons, hf]
          rw [hc]
          simp only [Bool.toNat_true, Bool.toNat_false]
          by_cases hsf : startsFence (ls.getD i []) = true
          · by_cases hp : (countFences (ls.take i) + 0) % 2 = 0
            · rw [if_pos ⟨hsf, hp⟩, if_pos ⟨hsf, by omega⟩]
            · rw [if_neg (fun hx => hp hx.2), if_neg (fun hx => hp (by omega))]
          · rw [if_neg (fun hx => hsf hx.1), if_neg (fun hx => hsf hx.1)]
    · have hf' : startsFence l = false := by simpa using hf
      rw [fence_step_other b l ls hf']
      cases i with
      | zero =>
        rw [List.getD_cons_zero, List.getD_cons_zero, if_neg]
        intro hx
        rw [hf'] at hx
        exact Bool.false_ne_true hx.1
      | succ i =>
        rw [List.getD_cons_succ, List.getD_cons_succ, ih b i]
        have hc : countFences ((l :: ls).take (i + 1)) = countFences (ls.take i) := by
          simp [countFences, List.countP_cons, hf']
        rw [hc]

/-- C6: for a file that passes the earlier rewriter stages, if the fence-tracking
state is still open at end of file the per-file processing ends in a warned skip and
nothing is written back; otherwise the file is written and every opening fence line
(a fence-starting line preceded by an even number of fence-starting lines) has been
rewritten to the default language-tagged fence. -/
theorem c6_fence_tagging (l0 h : Line) (rest : List Line) (ls5 : List Line)
    (hh : pretty_format_signature_header l0.dropLast = .ok (some h))
    (h5 : fuse_returns (after_header_stages h rest) = .ok ls5) :
    ((fence_pass false ls5).2 = true →
      pretty_format_markdown_file (l0 :: rest) = .skipped true)
    ∧ ((fence_pass false ls5).2 = false →
      pretty_format_markdown_file (l0 :: rest)
          = .written (image_pass (html_pass (fence_pass false ls5).1))
      ∧ ∀ i, startsFence (ls5.getD i []) = true → countFences (ls5.take i) % 2 = 0 →
          (fence_pass false ls5).1.getD i [] = pythonFence) := by
  constructor
  · intro hopen
    unfold pretty_format_markdown_file
    simp only []
    rw [hh]
    simp only []
    rw [h5]
    simp only []
    rw [hopen]
    simp
  · intro hclosed
    constructor
    · unfold pretty_format_markdown_file
      simp only []
      rw [hh]
      simp only []
      rw [h5]
      simp only []
      rw [hclosed]
      simp
    · intro i hsf hpar
      rw [fence_pass_getD ls5 false i, if_pos]
      refine ⟨hsf, ?_⟩
      simp only [Bool.toNat_false]
      omega

/-- C6 witness: a concrete file whose fence is closed gets its opening fence line
rewritten to the Python-tagged fence and is written back. -/
theorem c6_fence_tagging_witness :
    pretty_format_markdown_file
        ["# a.b(x)\n".toList, "```\n".toList, "hello\n".toList, "```\n".toList]
      = .written (image_pass (html_pass
          (fence_pass false (["a.**b**(_x_)\n".toList, "\n".toList, "---\n".toList,
            "\n".toList, "```\n".toList, "hello\n".toList, "```\n".toList])).1))
    ∧ (fence_pass false (["a.**b**(_x_)\n".toList, "\n".toList, "---\n".toList,
        "\n".toList, "```\n".toList, "hello\n".toList, "```\n".toList])).1.getD 4 []
      = pythonFence := by
  have h := c6_fence_tagging "# a.b(x)\n".toList "a.**b**(_x_)".toList
    ["```\n".toList, "hello\n".toList, "```\n".toList]
    ["a.**b**(_x_)\n".toList, "\n".toList, "---\n".toList, "\n".toList,
     "```\n".toList, "hello\n".toList, "```\n".toList]
    (by decide) (by decide)
  exact ⟨((h.2 (by decide)).1), (h.2 (by decide)).2 4 (by decide) (by decide)⟩

/-! ### C9: uncaught IndexError in the header parser -/

/-- C9: `_pretty_format_signature_header` is not total: it raises an IndexError on
the empty string (which `_pretty_format_markdown` passes in when a file's first line
is a bare newline) and on a header whose text before '(' is all whitespace; such a
file makes the per-file processing raise instead of warn-and-skip, and the whole run
aborts with the remaining files unprocessed. -/
theorem c9_header_index_error :
    pretty_format_signature_header [] = .error .indexError
    ∧ pretty_format_signature_header " (x)".toList = .error .indexError
    ∧ pretty_format_markdown_file ["\n".toList] = .raised .indexError
    ∧ pretty_format_markdown [["\n".toList], ["# a.b(x)\n".toList, "ok\n".toList]]
        = ([["\n".toList], ["# a.b(x)\n".toList, "ok\n".toList]], some .indexError) := by
  exact ⟨by decide, by decide, by decide, by decide⟩

/-! ### C5: the signature-header transform is one-way -/

lemma splitWsAux_nil (acc : Line) :
    splitWsAux [] acc = if acc = [] then [] else [acc.reverse] := rfl

lemma splitWsAux_cons_ws (c : Char) (cs acc : Line) (hc : isWsChar c = true) :
    splitWsAux (c :: cs) acc
      = if acc = [] then splitWsAux cs [] else acc.reverse :: splitWsAux cs [] := by
  simp [splitWsAux, hc]

lemma splitWsAux_cons_nows (c : Char) (cs acc : Line) (hc : isWsChar c = false) :
    splitWsAux (c :: cs) acc = splitWsAux cs (c :: acc) := by
  simp [splitWsAux, hc]

lemma splitWsAux_no_ws (l : Line) (h : ∀ c ∈ l, isWsChar c = false) :
    ∀ acc : Line, splitWsAux l acc
      = if acc.reverse ++ l = [] then [] else [acc.reverse ++ l] := by
  induction l with
  | nil =>
    intro acc
    rw [splitWsAux_nil]
    by_cases hacc : acc = [] <;> simp [hacc]
  | cons c cs ih =>
    intro acc
    have hc : isWsChar c = false := h c (by simp)
    have h' : ∀ x ∈ cs, isWsChar x = false := fun x hx => h x (by simp [hx])
    rw [splitWsAux_cons_nows c cs acc hc, ih h' (c :: acc)]
    rw [if_neg (by simp), if_neg (by simp)]
    simp

lemma splitWs_single (l : Line) (hne : l ≠ []) (h : ∀ c ∈ l, isWsChar c = false) :
    splitWs l = [l] := by
  unfold splitWs
  rw [splitWsAux_no_ws l h []]
  simp [hne]

lemma splitWsAux_sep (tok : Line) (h : ∀ c ∈ tok, isWsChar c = false) (rest : Line) :
    ∀ acc : Line, splitWsAux (tok ++ ' ' :: rest) acc
      = if acc.reverse ++ tok = [] then splitWsAux rest []
        else (acc.reverse ++ tok) :: splitWsAux rest [] := by
  induction tok with
  | nil =>
    intro acc
    rw [List.nil_append, splitWsAux_cons_ws ' ' rest acc rfl]
    by_cases hacc : acc = [] <;> simp [hacc]
  | cons c cs ih =>
    intro acc
    have hc : isWsChar c = false := h c (by simp)
    have h' : ∀ x ∈ cs, isWsChar x = false := fun x hx => h x (by simp [hx])
    rw [List.cons_append, splitWsAux_cons_nows c _ acc hc, ih h' (c :: acc)]
    rw [if_neg (by simp), if_neg (by simp)]
    simp

lemma splitWs_sep (tok : Line) (hne : tok ≠ []) (h : ∀ c ∈ tok, isWsChar c = false)
    (rest : Line) : splitWs (tok ++ ' ' :: rest) = tok :: splitWs rest := by
  unfold splitWs
  rw [splitWsAux_sep tok h rest []]
  simp [hne]

lemma splitWsAux_mem (l : Line) :
    ∀ (acc tok : Line), tok ∈ splitWsAux l acc → ∀ c ∈ tok, c ∈ l ∨ c ∈ acc := by
  induction l with
  | nil =>
    intro acc tok htok c hc
    rw [splitWsAux_nil] at htok
    by_cases hacc : acc = []
    · rw [if_pos hacc] at htok; simp at htok
    · rw [if_neg hacc] at htok
      simp only [List.mem_singleton] at htok
      subst htok
      exact Or.inr (by simpa using hc)
  | cons x xs ih =>
    intro acc tok htok c hc
    by_cases hx : isWsChar x
    · rw [splitWsAux_cons_ws x xs acc hx] at htok
      by_cases hacc : acc = []
      · rw [if_pos hacc] at htok
        rcases ih [] tok htok c hc with h | h
        · exact Or.inl (by simp [h])
        · simp at h
      · rw [if_neg hacc] at htok
        rcases List.mem_cons.mp htok with h | h
        · subst h
          exact Or.inr (by simpa using hc)
        · rcases ih [] tok h c hc with h' | h'
          · exact Or.inl (by simp [h'])
          · simp at h'
    · have hx' : isWsChar x = false := by simpa using hx
      rw [splitWsAux_cons_nows x xs acc hx'] at htok
      rcases ih (x :: acc) tok htok c hc with h | h
      · exact Or.inl (by simp [h])
      · rcases List.mem_cons.mp h with h' | h'
        · exact Or.inl (by simp [h'])
        · exact Or.inr h'

lemma splitWs_mem (l tok : Line) (htok : tok ∈ splitWs l) (c : Char) (hc : c ∈ tok) :
    c ∈ l := by
  rcases splitWsAux_mem l [] tok htok c hc with h | h
  · exact h
  · simp at h

lemma splitWsAux_nows (l : Line) :
    ∀ (acc tok : Line), (∀ c ∈ acc, isWsChar c = false) → tok ∈ splitWsAux l acc →
      ∀ c ∈ tok, isWsChar c = false := by
  induction l with
  | nil =>
    intro acc tok hacc htok c hc
    rw [splitWsAux_nil] at htok
    by_cases ha : acc = []
    · rw [if_pos ha] at htok; simp at htok
    · rw [if_neg ha] at htok
      simp only [List.mem_singleton] at htok
      subst htok
      exact hacc c (by simpa using hc)
  | cons x xs ih =>
    intro acc tok hacc htok c hc
    by_cases hx : isWsChar x
    · rw [splitWsAux_cons_ws x xs acc hx] at htok
      by_cases ha : acc = []
      · rw [if_pos ha] at htok
        exact ih [] tok (by simp) htok c hc
      · rw [if_neg ha] at htok
        rcases List.mem_cons.mp htok with h | h
        · subst h
          exact hacc c (by simpa using hc)
        · exact ih [] tok (by simp) h c hc
    · have hx' : isWsChar x = false := by simpa using hx
      rw [splitWsAux_cons_nows x xs acc hx'] at htok
      refine ih (x :: acc) tok ?_ htok c hc
      intro d hd
      rcases List.mem_cons.mp hd with h | h
      · rw [h]; exact hx'
      · exact hacc d h

lemma splitWs_nows (l tok : Line) (htok : tok ∈ splitWs l) :
    ∀ c ∈ tok, isWsChar c = false :=
  splitWsAux_nows l [] tok (by simp) htok

lemma findIdxChar_take (c : Char) (l : Line) :
    ∀ i, findIdxChar c l = some i → c ∉ l.take i := by
  induction l with
  | nil => intro i _; simp
  | cons x xs ih =>
    intro i hf
    unfold findIdxChar at hf
    by_cases hx : x = c
    · rw [if_pos hx] at hf
      injection hf with hf
      subst hf
      simp
    · rw [if_neg hx] at hf
      cases hr : findIdxChar c xs with
      | none => rw [hr] at hf; simp at hf
      | some j =>
        rw [hr] at hf
        simp only [Option.map_some'] at hf
        injection hf with hf
        subst hf
        intro hm
        rw [List.take_succ_cons] at hm
        rcases List.mem_cons.mp hm with h | h
        · exact hx h.symm
        · exact ih j hr h

lemma findIdxChar_append (c : Char) (a r : Line) (ha : c ∉ a) :
    findIdxChar c (a ++ c :: r) = some a.length := by
  induction a with
  | nil => rw [List.nil_append]; unfold findIdxChar; rw [if_pos rfl]; rfl
  | cons x xs ih =>
    rw [List.cons_append]
    unfold findIdxChar
    rw [if_neg (fun hx => ha (by simp [hx]))]
    rw [ih (fun hm => ha (by simp [hm]))]
    rfl

lemma bookend_head_und (a : Line) (ha : a ≠ []) :
    ∃ r : Line, bookend a und = '_' :: r := by
  unfold bookend
  rw [if_neg ha]
  by_cases hb : und.isPrefixOf a && und.isSuffixOf a
  · rw [if_pos hb]
    have hp : und.isPrefixOf a = true := by
      have := hb
      simp only [Bool.and_eq_true] at this
      exact this.1
    cases a with
    | nil => exact absurd rfl ha
    | cons x xs =>
      have hx : x = '_' := by
        have : ('_' == x && List.isPrefixOf ([] : Line) xs) = true := hp
        simp only [List.isPrefixOf, Bool.and_eq_true, beq_iff_eq] at this
        exact this.1.symm
      exact ⟨xs, by rw [hx]⟩
  · rw [if_neg hb]
    exact ⟨a ++ und, by simp [und]⟩

lemma header_compute (A params hl0 : Line) (secs : List Line)
    (hA : '(' ∉ A) (hsp : splitWs A = hl0 :: secs) (hne : hl0 ≠ [])
    (hok : secs = [] ∨ ∃ r : Line, hl0 = '_' :: r) :
    pretty_format_signature_header (A ++ ['('] ++ params ++ [')']) = .ok none := by
  rw [show A ++ ['('] ++ params ++ [')'] = (A ++ '(' :: params) ++ [')'] from by simp]
  unfold pretty_format_signature_header
  rw [List.getLast?_concat]
  simp only []
  rw [if_pos trivial, List.dropLast_concat, findIdxChar_append '(' A params hA]
  simp only []
  rw [show (A ++ '(' :: params).take A.length = A from take_len_append A _, hsp]
  simp only []
  cases hl0 with
  | nil => exact absurd rfl hne
  | cons h0 hr =>
    simp only []
    rcases hok with hsecs | ⟨r, hr0⟩
    · subst hsecs
      split <;> rfl
    · have h1 : h0 = '_' := by injection hr0
      subst h1
      rw [if_neg]
      intro hx
      exact absurd hx.1 (by decide)

lemma reparse_of_rebuilt (ann : Option Line) (fn params t : Line)
    (hfn_nows : ∀ c ∈ fn, isWsChar c = false)
    (hfn_np : '(' ∉ fn)
    (hann : ∀ a, ann = some a → ((∀ c ∈ a, isWsChar c = false) ∧ '(' ∉ a))
    (hre : rebuildHeader ann fn params = some t) :
    pretty_format_signature_header t = .ok none := by
  unfold rebuildHeader at hre
  cases hlp : lastIdxCharAux '.' 0 fn with
  | none => rw [hlp] at hre; exact absurd hre (by simp)
  | some lp =>
    rw [hlp] at hre
    simp only [Option.some.injEq] at hre
    have hB_ne : fn.take lp ++ ['.'] ++ bookend (fn.drop (lp + 1)) ast2 ≠ [] := by simp
    have hB_nows : ∀ c ∈ fn.take lp ++ ['.'] ++ bookend (fn.drop (lp + 1)) ast2,
        isWsChar c = false := by
      intro c hc
      rcases List.mem_append.mp hc with h | h
      · rcases List.mem_append.mp h with h' | h'
        · exact hfn_nows c (List.take_subset lp fn h')
        · simp only [List.mem_singleton] at h'
          rw [h']
          decide
      · rcases bookend_mem _ _ c h with h' | h'
        · exact hfn_nows c (List.drop_subset _ fn h')
        · have : c = '*' := by
            simpa [ast2] using h'
          rw [this]
          decide
    have hB_np : '(' ∉ fn.take lp ++ ['.'] ++ bookend (fn.drop (lp + 1)) ast2 := by
      intro hc
      rcases List.mem_append.mp hc with h | h
      · rcases List.mem_append.mp h with h' | h'
        · exact hfn_np (List.take_subset lp fn h')
        · simp only [List.mem_singleton] at h'
          exact absurd h' (by decide)
      · rcases bookend_mem _ _ '(' h with h' | h'
        · exact hfn_np (List.drop_subset _ fn h')
        · exact absurd h' (by decide)
    cases ann with
    | none =>
      simp only [List.nil_append] at hre
      subst hre
      exact header_compute _ params _ [] hB_np
        (splitWs_single _ hB_ne hB_nows) hB_ne (Or.inl rfl)
    | some a =>
      obtain ⟨ha_nows, ha_np⟩ := hann a rfl
      simp only [] at hre
      by_cases ha : a = []
      · rw [if_neg (by simp [ha])] at hre
        simp only [List.nil_append] at hre
        subst hre
        exact header_compute _ params _ [] hB_np
          (splitWs_single _ hB_ne hB_nows) hB_ne (Or.inl rfl)
      · rw [if_pos ha] at hre
        subst hre
        have htok_ne : bookend a und ≠ [] := bookend_ne_nil a und ha
        have htok_nows : ∀ c ∈ bookend a und, isWsChar c = false := by
          intro c hc
          rcases bookend_mem a und c hc with h | h
          · exact ha_nows c h
          · have : c = '_' := by simpa [und] using h
            rw [this]
            decide
        have htok_np : '(' ∉ bookend a und := by
          intro hc
          rcases bookend_mem a und '(' hc with h | h
          · exact ha_np h
          · exact absurd h (by decide)
        obtain ⟨r, hhead⟩ := bookend_head_und a ha
        have hAeq : (bookend a und ++ [' ']) ++ fn.take lp ++ ['.']
              ++ bookend (fn.drop (lp + 1)) ast2
            = bookend a und
              ++ ' ' :: (fn.take lp ++ ['.'] ++ bookend (fn.drop (lp + 1)) ast2) := by
          simp
        have hsp : splitWs ((bookend a und ++ [' ']) ++ fn.take lp ++ ['.']
              ++ bookend (fn.drop (lp + 1)) ast2)
            = bookend a und
              :: splitWs (fn.take lp ++ ['.'] ++ bookend (fn.drop (lp + 1)) ast2) := by
          rw [hAeq]
          exact splitWs_sep _ htok_ne htok_nows _
        have hA_np : '(' ∉ (bookend a und ++ [' ']) ++ fn.take lp ++ ['.']
            ++ bookend (fn.drop (lp + 1)) ast2 := by
          rw [hAeq]
          intro hc
          rcases List.mem_append.mp hc with h | h
          · exact htok_np h
          · rcases List.mem_cons.mp h with h' | h'
            · exact absurd h' (by decide)
            · exact hB_np h'
        exact header_compute _ params (bookend a und) _ hA_np hsp htok_ne
          (Or.inr ⟨r, hhead⟩)

/-- C5: the signature-header transform is one-way: whenever
`_pretty_format_signature_header` succeeds on `s` with output `t`, re-running it on
`t` fails validation and returns None; in particular it is never idempotent on a
successfully parsed header. -/
theorem c5_header_one_way (s t : Line)
    (hsome : pretty_format_signature_header s = .ok (some t)) :
    pretty_format_signature_header t = .ok none := by
  unfold pretty_format_signature_header at hsome
  split at hsome
  · exact absurd hsome (by simp)
  · split at hsome
    · split at hsome
      · exact absurd hsome (by simp)
      · rename_i c hgl hc i hfi
        split at hsome
        · exact absurd hsome (by simp)
        · rename_i hl secs hsplit
          split at hsome
          · exact absurd hsome (by simp)
          · rename_i h0 tail
            split at hsome
            · split at hsome
              · rename_i hchk fn
                simp only [Except.ok.injEq] at hsome
                have hmem : fn ∈ splitWs (s.dropLast.take i) := by
                  rw [hsplit]
                  simp
                exact reparse_of_rebuilt none fn _ t
                  (splitWs_nows _ fn hmem)
                  (fun hcm => findIdxChar_take '(' s.dropLast i hfi
                    (splitWs_mem _ fn hmem '(' hcm))
                  (by intro a ha; cases ha)
                  hsome
              · rename_i hchk a fn
                simp only [Except.ok.injEq] at hsome
                have hmemf : fn ∈ splitWs (s.dropLast.take i) := by
                  rw [hsplit]
                  simp
                have hmema : a ∈ splitWs (s.dropLast.take i) := by
                  rw [hsplit]
                  simp
                refine reparse_of_rebuilt (some a) fn _ t
                  (splitWs_nows _ fn hmemf)
                  (fun hcm => findIdxChar_take '(' s.dropLast i hfi
                    (splitWs_mem _ fn hmemf '(' hcm))
                  ?_ hsome
                intro a' ha'
                injection ha' with ha'
                subst ha'
                exact ⟨splitWs_nows _ a hmema,
                  fun hcm => findIdxChar_take '(' s.dropLast i hfi
                    (splitWs_mem _ a hmema '(' hcm)⟩
              · exact absurd hsome (by simp)
            · exact absurd hsome (by simp)
    · exact absurd hsome (by simp)

/-- C5 witness: the docstring example header parses, and its formatted output fails
re-parsing with None. -/
theorem c5_header_one_way_witness :
    pretty_format_signature_header "### class module.function(param1, param2=None)".toList
      = .ok (some "_class_ module.**function**(_param1, param2=None_)".toList)
    ∧ pretty_format_signature_header
        "_class_ module.**function**(_param1, param2=None_)".toList = .ok none := by
  refine ⟨by decide, ?_⟩
  exact c5_header_one_way "### class module.function(param1, param2=None)".toList
    "_class_ module.**function**(_param1, param2=None_)".toList (by decide)
